import Mathlib

/-!
Shallow embedding of the safe strings library (src/safe_strings/core/safe_strings.c)
over lists of bytes, together with proofs about its documented behavior.

Modelling conventions:
- a byte is a `Nat` (the C code compares bytes as unsigned chars);
- a `string_t *` argument is an `Option string_t` (`none` models a NULL pointer);
- a `const char *buffer` argument with an explicit length is an
  `Option (List Nat)` (`none` models NULL) plus the length argument;
- a mutating C function returning `string_result_t` becomes a pure function
  returning the result code paired with the state of the pointed-to object
  after the call;
- `malloc` contents are indeterminate in C; constructors therefore take the
  freshly allocated block as an explicit `junk` parameter, and theorems
  hypothesize that it has the allocated size.  `realloc` growth is modelled as
  always succeeding (the out-of-memory path is the only one not modelled), with
  the fresh tail bytes represented by zeros; no operation reads a fresh byte
  before writing it.
-/

/-- STRING_DEFAULT_CAPACITY from the header. -/
def STRING_DEFAULT_CAPACITY : Nat := 64

/-- STRING_GROWTH_FACTOR from the header. -/
def STRING_GROWTH_FACTOR : Nat := 2

/-- Result codes of the library (string_result_t). -/
inductive string_result_t where
  | STRING_SUCCESS
  | STRING_ERROR_NULL_POINTER
  | STRING_ERROR_OUT_OF_MEMORY
  | STRING_ERROR_INVALID_INDEX
  | STRING_ERROR_BUFFER_TOO_SMALL
  | STRING_ERROR_INVALID_ARGUMENT
deriving DecidableEq, Repr

open string_result_t

/-- The string_t structure: `data` is the allocated buffer (its list length is
the allocation size), `length` the logical length, `capacity` the recorded
allocation size, `is_owner` the ownership flag. -/
structure string_t where
  data : List Nat
  length : Nat
  capacity : Nat
  is_owner : Bool
deriving DecidableEq, Repr

/-- The logical content of a string: the first `length` bytes of its buffer. -/
def string_content (s : string_t) : List Nat := s.data.take s.length

/-- Well-formedness invariant maintained by the library: the recorded capacity
is the real allocation size, there is room for the terminator, and the byte at
offset `length` is the zero terminator. -/
def StringWF (s : string_t) : Prop :=
  s.data.length = s.capacity ∧ s.length < s.capacity ∧ s.data[s.length]? = some 0

instance (s : string_t) : Decidable (StringWF s) := by
  unfold StringWF
  exact inferInstance

/-- Model of memcpy/memmove writing `src` into `buf` starting at offset `off`.
The move is overlap-safe because `src` is read from the pre-state. -/
def writeBytes (buf : List Nat) (off : Nat) (src : List Nat) : List Nat :=
  buf.take off ++ src ++ buf.drop (off + src.length)

/-- Model of realloc to `n` bytes: the common prefix is preserved, fresh bytes
are indeterminate (represented by zeros, never read before written). -/
def realloc_grow (buf : List Nat) (n : Nat) : List Nat :=
  buf.take n ++ List.replicate (n - buf.length) 0

/-- string_calculate_growth over unbounded naturals: doubles the current
capacity until it reaches the required capacity.  Two behaviors of the C loop
are not reproduced by this idealization: the loop does not terminate when the
current capacity is 0 and the required capacity is positive (the embedding
returns 0 there; the case is unreachable, since every constructed string has
capacity at least 1), and, more importantly, the C multiplication is size_t
arithmetic, so the doubling wraps to 0 and the loop runs forever once the
required capacity exceeds the last doubling representable before the wrap (see
szt_double and growth_loop_state below for the faithful machine-level loop).
The idealization is therefore only used to reason about callers whose
requested capacities stay far below the size_t wrap. -/
def string_calculate_growth (current_capacity required_capacity : Nat) : Nat :=
  if h1 : current_capacity < required_capacity then
    if h2 : current_capacity = 0 then 0
    else string_calculate_growth (current_capacity * STRING_GROWTH_FACTOR) required_capacity
  else current_capacity
termination_by required_capacity - current_capacity
decreasing_by
  simp only [STRING_GROWTH_FACTOR]
  omega

/-- string_ensure_capacity: no-op when capacity suffices, otherwise grows via
string_calculate_growth and reallocates.  The C function also returns
STRING_ERROR_NULL_POINTER on a NULL str; every caller in the library checks
NULL first, so the embedding takes the structure directly. -/
def string_ensure_capacity (s : string_t) (required_capacity : Nat) :
    string_result_t × string_t :=
  if s.is_owner = false then (STRING_ERROR_NULL_POINTER, s)
  else if required_capacity ≤ s.capacity then (STRING_SUCCESS, s)
  else
    let new_capacity := string_calculate_growth s.capacity required_capacity
    (STRING_SUCCESS,
      { s with data := realloc_grow s.data new_capacity, capacity := new_capacity })

/-- string_create_with_capacity: `junk` models the indeterminate contents of
the freshly malloc'd block; theorems hypothesize it has the allocated size.
Allocation failure (a NULL return) is not modelled. -/
def string_create_with_capacity (capacity : Nat) (junk : List Nat) : string_t :=
  let cap := if capacity = 0 then STRING_DEFAULT_CAPACITY else capacity
  { data := junk.set 0 0, length := 0, capacity := cap, is_owner := true }

/-- string_assign_buffer: replaces the whole content with `len` bytes read from
`buffer` (NULL buffer with positive length is rejected). -/
def string_assign_buffer (str : Option string_t) (buffer : Option (List Nat))
    (len : Nat) : string_result_t × Option string_t :=
  match str with
  | none => (STRING_ERROR_NULL_POINTER, none)
  | some s =>
    if buffer.isNone ∧ 0 < len then (STRING_ERROR_INVALID_ARGUMENT, some s)
    else
      let er := string_ensure_capacity s (len + 1)
      if er.1 = STRING_SUCCESS then
        let s1 := er.2
        let d := if 0 < len then writeBytes s1.data 0 ((buffer.getD []).take len)
                 else s1.data
        (STRING_SUCCESS, some { s1 with data := d.set len 0, length := len })
      else (er.1, some er.2)

/-- string_append_buffer: appends `len` bytes read from `buffer` at the end. -/
def string_append_buffer (str : Option string_t) (buffer : Option (List Nat))
    (len : Nat) : string_result_t × Option string_t :=
  match str with
  | none => (STRING_ERROR_NULL_POINTER, none)
  | some s =>
    if buffer.isNone ∧ 0 < len then (STRING_ERROR_INVALID_ARGUMENT, some s)
    else if len = 0 then (STRING_SUCCESS, some s)
    else
      let new_length := s.length + len
      let er := string_ensure_capacity s (new_length + 1)
      if er.1 = STRING_SUCCESS then
        let s1 := er.2
        let d := writeBytes s1.data s.length ((buffer.getD []).take len)
        (STRING_SUCCESS, some { s1 with data := d.set new_length 0, length := new_length })
      else (er.1, some er.2)

/-- string_insert_buffer: inserts `len` bytes read from `buffer` at `index`,
shifting the tail right with an overlap-safe move. -/
def string_insert_buffer (str : Option string_t) (index : Nat)
    (buffer : Option (List Nat)) (len : Nat) : string_result_t × Option string_t :=
  match str with
  | none => (STRING_ERROR_NULL_POINTER, none)
  | some s =>
    if s.length < index then (STRING_ERROR_INVALID_INDEX, some s)
    else if buffer.isNone ∧ 0 < len then (STRING_ERROR_INVALID_ARGUMENT, some s)
    else if len = 0 then (STRING_SUCCESS, some s)
    else
      let new_length := s.length + len
      let er := string_ensure_capacity s (new_length + 1)
      if er.1 = STRING_SUCCESS then
        let s1 := er.2
        let d1 := if index < s.length
          then writeBytes s1.data (index + len) ((s1.data.drop index).take (s.length - index))
          else s1.data
        let d2 := writeBytes d1 index ((buffer.getD []).take len)
        (STRING_SUCCESS, some { s1 with data := d2.set new_length 0, length := new_length })
      else (er.1, some er.2)

/-- string_erase over unbounded naturals: erases `count` bytes at `index`
(count clamped to the tail), shifting the remaining tail left with an
overlap-safe move.  The clamp test `index + count > length` is exact for the C
code only while `index + count` does not wrap in size_t; the machine-faithful
variant with explicit mod 2 ^ 64 arithmetic is string_erase_szt below, which
agrees with this definition whenever no size_t expression wraps
(string_erase_szt_agrees). -/
def string_erase (str : Option string_t) (index count : Nat) :
    string_result_t × Option string_t :=
  match str with
  | none => (STRING_ERROR_NULL_POINTER, none)
  | some s =>
    if s.length ≤ index then (STRING_ERROR_INVALID_INDEX, some s)
    else if count = 0 then (STRING_SUCCESS, some s)
    else
      let count1 := if s.length < index + count then s.length - index else count
      let chars_after := s.length - index - count1
      let d := if 0 < chars_after
        then writeBytes s.data index ((s.data.drop (index + count1)).take chars_after)
        else s.data
      let new_length := s.length - count1
      (STRING_SUCCESS, some { s with data := d.set new_length 0, length := new_length })

/-- Model of the C locale isspace over a byte: space, tab, newline, vertical
tab, form feed, carriage return. -/
def c_isspace (b : Nat) : Bool := b == 32 || (9 ≤ b && b ≤ 13)

/-- string_trim: fails STRING_ERROR_NULL_POINTER on a NULL or empty instance;
otherwise drops leading and trailing whitespace bytes, moving the surviving
content to the front (the two scanning while loops are expressed with
takeWhile over the logical content). -/
def string_trim (str : Option string_t) : string_result_t × Option string_t :=
  match str with
  | none => (STRING_ERROR_NULL_POINTER, none)
  | some s =>
    if s.length = 0 then (STRING_ERROR_NULL_POINTER, some s)
    else
      let content := s.data.take s.length
      let start := (content.takeWhile c_isspace).length
      let trailing := ((content.drop start).reverse.takeWhile c_isspace).length
      let stop := s.length - trailing
      let d := if 0 < start
        then writeBytes s.data 0 ((s.data.drop start).take (stop - start))
        else s.data
      let new_length := stop - start
      (STRING_SUCCESS, some { s with data := d.set new_length 0, length := new_length })

/-- Model of memcmp over the first `n` bytes of two buffers, returning the sign
of the first differing byte pair (bytes compared as unsigned values). -/
def memcmp : List Nat → List Nat → Nat → Int
  | _, _, 0 => 0
  | [], _, _ + 1 => 0
  | _ :: _, [], _ + 1 => 0
  | x :: xs, y :: ys, n + 1 =>
    if x < y then -1 else if y < x then 1 else memcmp xs ys n

/-- string_compare: NULL-aware comparison, then memcmp over the shorter length
with the length as tie-break. -/
def string_compare (str1 str2 : Option string_t) : Int :=
  match str1, str2 with
  | none, none => 0
  | none, some _ => -1
  | some _, none => 1
  | some s1, some s2 =>
    let min_len := if s1.length < s2.length then s1.length else s2.length
    let result := memcmp s1.data s2.data min_len
    if result = 0 then
      if s1.length < s2.length then -1
      else if s2.length < s1.length then 1
      else result
    else result

/-- Model of strcmp over two null-terminated buffers: bytes are compared as
unsigned values until they differ or both strings terminate; running off the
end of the list acts as a terminator. -/
def strcmp : List Nat → List Nat → Int
  | [], [] => 0
  | [], y :: _ => if y = 0 then 0 else -1
  | x :: _, [] => if x = 0 then 0 else 1
  | x :: xs, y :: ys =>
    if x < y then -1
    else if y < x then 1
    else if x = 0 then 0
    else strcmp xs ys

/-- string_compare_cstr: NULL-aware, then strcmp of the container's raw buffer
against the null-terminated source. -/
def string_compare_cstr (str : Option string_t) (cstr : Option (List Nat)) : Int :=
  match str, cstr with
  | none, none => 0
  | none, some _ => -1
  | some _, none => 1
  | some s, some c => strcmp s.data c

/-- string_copy_to_buffer: copies as much of the logical content as fits into
the caller's buffer (modelled as a list whose length is the buffer size),
always terminating it, and reports truncation. -/
def string_copy_to_buffer (str : Option string_t) (buffer : Option (List Nat)) :
    string_result_t × Option (List Nat) :=
  match str, buffer with
  | none, b => (STRING_ERROR_NULL_POINTER, b)
  | some _, none => (STRING_ERROR_NULL_POINTER, none)
  | some s, some buf =>
    let buffer_size := buf.length
    if buffer_size = 0 then (STRING_ERROR_BUFFER_TOO_SMALL, some buf)
    else
      let copy_length := if buffer_size ≤ s.length then buffer_size - 1 else s.length
      let buf1 := writeBytes buf 0 (s.data.take copy_length)
      let buf2 := buf1.set copy_length 0
      (if copy_length = s.length then STRING_SUCCESS else STRING_ERROR_BUFFER_TOO_SMALL,
       some buf2)

/-- Lexicographic byte comparison over full logical contents, written from the
specification's words for the comparison claims: byte-wise over the common
prefix, with the shorter list sorting first on a tie. -/
def compareSpec : List Nat → List Nat → Int
  | [], [] => 0
  | [], _ :: _ => -1
  | _ :: _, [] => 1
  | x :: xs, y :: ys => if x < y then -1 else if y < x then 1 else compareSpec xs ys

/-- The portion of a buffer that a null-terminated-string consumer sees: the
bytes strictly before the first zero byte. -/
def cstr_view (buf : List Nat) : List Nat := buf.takeWhile (fun b => b != 0)

/-- Number of values of the C size_t on the 64-bit target: arithmetic on
size_t wraps modulo this limit. -/
def SIZE_T_LIMIT : Nat := 2 ^ 64

/-- size_t addition: wraps modulo 2 ^ 64. -/
def szt_add (a b : Nat) : Nat := (a + b) % SIZE_T_LIMIT

/-- size_t subtraction of b from a for representable operands (a, b below the
limit): wraps modulo 2 ^ 64. -/
def szt_sub (a b : Nat) : Nat := (a + SIZE_T_LIMIT - b) % SIZE_T_LIMIT

/-- One iteration of the body of the string_calculate_growth while loop as the
machine executes it: size_t multiplication by STRING_GROWTH_FACTOR, wrapping
modulo 2 ^ 64. -/
def szt_double (x : Nat) : Nat := (x * STRING_GROWTH_FACTOR) % SIZE_T_LIMIT

/-- Value of new_capacity in string_calculate_growth after n executions of the
loop body, starting from a current capacity; the C loop keeps iterating while
this value is below the required capacity. -/
def growth_loop_state (current : Nat) : Nat → Nat
  | 0 => current
  | n + 1 => szt_double (growth_loop_state current n)

/-- string_erase with the C size_t arithmetic made explicit: every size_t
expression of the C function (the clamp test index + count > length, the
adjusted count, chars_after, the memmove source offset and the updated length)
is computed modulo 2 ^ 64 exactly as a 64-bit machine does.  A memmove or
terminator write that touches an offset at or beyond the allocation is
undefined behavior in C and is modelled as `none`; a defined execution returns
`some` of the result and post-state. -/
def string_erase_szt (str : Option string_t) (index count : Nat) :
    Option (string_result_t × Option string_t) :=
  match str with
  | none => some (STRING_ERROR_NULL_POINTER, none)
  | some s =>
    if s.length ≤ index then some (STRING_ERROR_INVALID_INDEX, some s)
    else if count = 0 then some (STRING_SUCCESS, some s)
    else
      let count1 := if s.length < szt_add index count then szt_sub s.length index else count
      let chars_after := szt_sub (szt_sub s.length index) count1
      let src_off := szt_add index count1
      let new_length := szt_sub s.length count1
      if (0 < chars_after → src_off + chars_after ≤ s.data.length ∧
            index + chars_after ≤ s.data.length) ∧ new_length < s.data.length then
        let d := if 0 < chars_after
          then writeBytes s.data index ((s.data.drop src_off).take chars_after)
          else s.data
        some (STRING_SUCCESS, some { s with data := d.set new_length 0, length := new_length })
      else none

/-- Growth policy characterization: starting from a positive capacity, the
computed value is the least current * 2 ^ k (k ≥ 0) reaching the requirement. -/
lemma string_calculate_growth_spec (current required : Nat) :
    1 ≤ current →
    (∃ k, string_calculate_growth current required = current * 2 ^ k) ∧
    required ≤ string_calculate_growth current required ∧
    ∀ j, required ≤ current * 2 ^ j →
      string_calculate_growth current required ≤ current * 2 ^ j := by
  induction current, required using string_calculate_growth.induct with
  | case1 required h =>
    intro hc
    omega
  | case2 current required h1 h2 ih =>
    intro hc
    have hc2 : 1 ≤ current * STRING_GROWTH_FACTOR := by
      simp only [STRING_GROWTH_FACTOR]; omega
    obtain ⟨⟨k, hk⟩, hreq, hmin⟩ := ih hc2
    rw [string_calculate_growth, dif_pos h1, dif_neg h2]
    refine ⟨⟨k + 1, ?_⟩, hreq, ?_⟩
    · rw [hk]
      simp only [STRING_GROWTH_FACTOR]
      ring
    · intro j hj
      cases j with
      | zero => simp at hj; omega
      | succ j1 =>
        have hms := hmin j1 (by
          simp only [STRING_GROWTH_FACTOR]
          calc required ≤ current * 2 ^ (j1 + 1) := hj
            _ = current * 2 * 2 ^ j1 := by ring)
        calc string_calculate_growth (current * STRING_GROWTH_FACTOR) required
            ≤ current * STRING_GROWTH_FACTOR * 2 ^ j1 := hms
          _ = current * 2 ^ (j1 + 1) := by simp only [STRING_GROWTH_FACTOR]; ring
  | case3 current required h1 =>
    intro hc
    rw [string_calculate_growth, dif_neg h1]
    refine ⟨⟨0, by ring⟩, by omega, ?_⟩
    intro j _
    have h2j : 1 ≤ 2 ^ j := Nat.one_le_two_pow
    calc current = current * 1 := by ring
      _ ≤ current * 2 ^ j := Nat.mul_le_mul_left current h2j

/-- Setting an element at or beyond the take bound does not change the take. -/
lemma take_set_of_le (l : List Nat) (m n a : Nat) (h : n ≤ m) :
    (l.set m a).take n = l.take n := by
  induction l generalizing m n with
  | nil => simp
  | cons x xs ih =>
    cases m with
    | zero =>
      interval_cases n
      · simp
    | succ m1 =>
      cases n with
      | zero => simp
      | succ n1 => simp [List.set, ih m1 n1 (by omega)]

/-- writeBytes preserves the buffer size when the write stays in bounds. -/
lemma writeBytes_length (buf src : List Nat) (off : Nat)
    (h : off + src.length ≤ buf.length) :
    (writeBytes buf off src).length = buf.length := by
  simp [writeBytes]
  omega

/-- Reading a take below the written window of writeBytes. -/
lemma take_writeBytes_le (buf src : List Nat) (off m : Nat)
    (hm : m ≤ off) (hoff : off ≤ buf.length) :
    (writeBytes buf off src).take m = buf.take m := by
  have hA : (List.take off buf).length = off := by
    rw [List.length_take]
    omega
  have hAB : (List.take off buf ++ src).length = off + src.length := by
    rw [List.length_append, hA]
  simp only [writeBytes]
  rw [List.take_append_eq_append_take, hAB]
  have h1 : m - (off + src.length) = 0 := by omega
  rw [h1, List.take_zero, List.append_nil]
  rw [List.take_append_eq_append_take, hA]
  have h2 : m - off = 0 := by omega
  rw [h2, List.take_zero, List.append_nil, List.take_take]
  congr 1
  omega

/-- Reading a take that covers the whole written window of writeBytes. -/
lemma take_writeBytes_ge (buf src : List Nat) (off m : Nat)
    (hoff : off + src.length ≤ buf.length) (hm : off + src.length ≤ m) :
    (writeBytes buf off src).take m =
      buf.take off ++ src ++ (buf.drop (off + src.length)).take (m - off - src.length) := by
  have hA : (List.take off buf).length = off := by
    rw [List.length_take]
    omega
  have hAB : (List.take off buf ++ src).length = off + src.length := by
    rw [List.length_append, hA]
  simp only [writeBytes]
  rw [List.take_append_eq_append_take, hAB,
    List.take_of_length_le (by rw [hAB]; omega)]
  congr 2
  omega

/-- Dropping up to the write offset of writeBytes. -/
lemma drop_writeBytes_off (buf src : List Nat) (off : Nat)
    (hoff : off ≤ buf.length) :
    (writeBytes buf off src).drop off = src ++ buf.drop (off + src.length) := by
  have hA : (List.take off buf).length = off := by
    rw [List.length_take]
    omega
  have hAB : (List.take off buf ++ src).length = off + src.length := by
    rw [List.length_append, hA]
  simp only [writeBytes]
  rw [List.drop_append_eq_append_drop, hAB]
  have h1 : off - (off + src.length) = 0 := by omega
  rw [h1, List.drop_zero]
  rw [List.drop_append_eq_append_drop, hA]
  have h2 : off - off = 0 := by omega
  rw [h2, List.drop_zero]
  have h3 : List.drop off (List.take off buf) = [] := by
    rw [List.drop_of_length_le (by rw [hA])]
  rw [h3, List.nil_append]

/-- When string_ensure_capacity reports success, the buffer keeps its old
bytes as a prefix and the capacity now meets the requirement. -/
lemma string_ensure_capacity_success (s : string_t) (req : Nat)
    (hwf : s.data.length = s.capacity) (hc : 1 ≤ s.capacity)
    (h : (string_ensure_capacity s req).1 = STRING_SUCCESS) :
    ∃ pad, (string_ensure_capacity s req).2.data = s.data ++ pad ∧
      (string_ensure_capacity s req).2.length = s.length ∧
      (string_ensure_capacity s req).2.is_owner = s.is_owner ∧
      (string_ensure_capacity s req).2.data.length = (string_ensure_capacity s req).2.capacity ∧
      req ≤ (string_ensure_capacity s req).2.capacity := by
  unfold string_ensure_capacity at h ⊢
  by_cases ho : s.is_owner = false
  · simp [ho] at h
  · by_cases hreq : req ≤ s.capacity
    · refine ⟨[], ?_⟩
      simp [ho, hreq, hwf]
    · have hg := string_calculate_growth_spec s.capacity req (by omega)
      obtain ⟨⟨k, hk⟩, hgr, hgmin⟩ := hg
      have hge : s.capacity ≤ string_calculate_growth s.capacity req := by
        rw [hk]
        have h2k : 1 ≤ 2 ^ k := Nat.one_le_two_pow
        calc s.capacity = s.capacity * 1 := by ring
          _ ≤ s.capacity * 2 ^ k := Nat.mul_le_mul_left s.capacity h2k
      have hdl : s.data.length ≤ string_calculate_growth s.capacity req := by omega
      refine ⟨List.replicate (string_calculate_growth s.capacity req - s.data.length) 0,
        ?_, ?_, ?_, ?_, ?_⟩
      · rw [if_neg ho, if_neg hreq]
        simp [realloc_grow, List.take_of_length_le hdl]
      · rw [if_neg ho, if_neg hreq]
      · rw [if_neg ho, if_neg hreq]
      · rw [if_neg ho, if_neg hreq]
        simp [realloc_grow, List.take_of_length_le hdl]
        omega
      · rw [if_neg ho, if_neg hreq]
        exact hgr

/-- Behavior of string_erase on a valid index: the clamped count is removed,
the logical content splices around the gap, and the invariant is maintained. -/
lemma string_erase_spec (s : string_t) (i c : Nat) (hwf : StringWF s) (hi : i < s.length) :
    (string_erase (some s) i c).1 = STRING_SUCCESS ∧
    ∃ t, (string_erase (some s) i c).2 = some t ∧ StringWF t ∧
      t.capacity = s.capacity ∧ t.is_owner = s.is_owner ∧
      t.length = s.length - min c (s.length - i) ∧
      string_content t =
        (string_content s).take i ++ (string_content s).drop (i + min c (s.length - i)) := by
  obtain ⟨hdl, hlc, hterm⟩ := hwf
  have hL : s.length ≤ s.data.length := by omega
  simp only [string_erase]
  rw [if_neg (by omega : ¬ s.length ≤ i)]
  by_cases hc : c = 0
  · subst hc
    simp only [if_pos rfl]
    refine ⟨rfl, s, rfl, ⟨hdl, hlc, hterm⟩, rfl, rfl, ?_, ?_⟩
    · simp
    · simp [string_content, List.take_append_drop]
  · rw [if_neg hc]
    have hcount : (if s.length < i + c then s.length - i else c) = min c (s.length - i) := by
      by_cases h : s.length < i + c
      · rw [if_pos h]
        omega
      · rw [if_neg h]
        omega
    rw [hcount]
    set c1 := min c (s.length - i) with hc1
    have hc1le : c1 ≤ s.length - i := by omega
    have hc1pos : 0 < c1 := by omega
    by_cases hca : 0 < s.length - i - c1
    · rw [if_pos hca]
      have hYlen : ((s.data.drop (i + c1)).take (s.length - i - c1)).length
          = s.length - i - c1 := by
        rw [List.length_take, List.length_drop]
        omega
      have hwb : i + ((s.data.drop (i + c1)).take (s.length - i - c1)).length
          ≤ s.data.length := by
        rw [hYlen]
        omega
      have hdlen : (writeBytes s.data i
          ((s.data.drop (i + c1)).take (s.length - i - c1))).length = s.data.length :=
        writeBytes_length _ _ _ hwb
      refine ⟨rfl, _, rfl, ?_, rfl, rfl, ?_, ?_⟩
      · refine ⟨?_, ?_, ?_⟩
        · simp [hdlen, hdl]
        · simp
          omega
        · simp only
          rw [List.getElem?_set_self (by rw [hdlen]; omega)]
      · simp
      · simp only [string_content]
        rw [take_set_of_le _ _ _ _ (le_refl _)]
        have hm : i + ((s.data.drop (i + c1)).take (s.length - i - c1)).length
            ≤ s.length - c1 := by
          rw [hYlen]
          omega
        rw [take_writeBytes_ge _ _ _ _ (by rw [hYlen]; omega) hm]
        rw [hYlen]
        have h0 : s.length - c1 - i - (s.length - i - c1) = 0 := by omega
        rw [h0, List.take_zero, List.append_nil]
        rw [List.take_take]
        have hmin : min i s.length = i := by omega
        rw [hmin]
        rw [List.drop_take]
        congr 2
        omega
    · rw [if_neg hca]
      have hic1 : s.length - c1 = i := by omega
      refine ⟨rfl, _, rfl, ?_, rfl, rfl, rfl, ?_⟩
      · refine ⟨?_, ?_, ?_⟩
        · simp [hdl]
        · simp
          omega
        · simp only
          rw [List.getElem?_set_self (by omega)]
      · simp only [string_content]
        rw [take_set_of_le _ _ _ _ (le_refl _), hic1]
        rw [List.take_take]
        have hmin : min i s.length = i := by omega
        rw [hmin]
        have hd : (s.data.take s.length).drop (i + c1) = [] := by
          rw [List.drop_of_length_le]
          rw [List.length_take]
          omega
        rw [hd, List.append_nil]

/-- Behavior of string_insert_buffer with a present, nonempty buffer when it
succeeds: the content splices in at the index and the invariant is
maintained. -/
lemma string_insert_buffer_success (s : string_t) (i : Nat) (b : List Nat)
    (hwf : StringWF s) (hi : i ≤ s.length) (hb : b ≠ [])
    (hsucc : (string_insert_buffer (some s) i (some b) b.length).1 = STRING_SUCCESS) :
    ∃ t, (string_insert_buffer (some s) i (some b) b.length).2 = some t ∧ StringWF t ∧
      t.length = s.length + b.length ∧
      string_content t = (string_content s).take i ++ b ++ (string_content s).drop i := by
  obtain ⟨hdl, hlc, hterm⟩ := hwf
  have hL : s.length ≤ s.data.length := by omega
  have hbpos : 0 < b.length := List.length_pos.mpr hb
  simp only [string_insert_buffer] at hsucc ⊢
  rw [if_neg (by omega : ¬ s.length < i)] at hsucc ⊢
  rw [if_neg (by simp [hbpos] : ¬ ((some b).isNone ∧ 0 < b.length))] at hsucc ⊢
  rw [if_neg (by omega : ¬ b.length = 0)] at hsucc ⊢
  by_cases hE : (string_ensure_capacity s (s.length + b.length + 1)).1 = STRING_SUCCESS
  case neg =>
    rw [if_neg hE] at hsucc
    exact absurd hsucc hE
  rw [if_pos hE] at hsucc ⊢
  obtain ⟨pad, hpdata, hplen, hpown, hpwf, hpcap⟩ :=
    string_ensure_capacity_success s (s.length + b.length + 1) hdl (by omega) hE
  set s1 := (string_ensure_capacity s (s.length + b.length + 1)).2 with hs1
  have hD : s.length + b.length + 1 ≤ s1.data.length := by omega
  simp only [Option.getD_some, List.take_length]
  by_cases hii : i < s.length
  · rw [if_pos hii]
    have hYlen : ((s1.data.drop i).take (s.length - i)).length = s.length - i := by
      rw [List.length_take, List.length_drop]
      omega
    have hwb1 : i + b.length + ((s1.data.drop i).take (s.length - i)).length
        ≤ s1.data.length := by
      rw [hYlen]
      omega
    have hd1len : (writeBytes s1.data (i + b.length)
        ((s1.data.drop i).take (s.length - i))).length = s1.data.length :=
      writeBytes_length _ _ _ hwb1
    have hwb2 : i + b.length ≤ (writeBytes s1.data (i + b.length)
        ((s1.data.drop i).take (s.length - i))).length := by
      rw [hd1len]
      omega
    have hd2len : (writeBytes (writeBytes s1.data (i + b.length)
        ((s1.data.drop i).take (s.length - i))) i b).length = s1.data.length := by
      rw [writeBytes_length _ _ _ (by rw [hd1len]; omega), hd1len]
    refine ⟨_, rfl, ⟨?_, ?_, ?_⟩, rfl, ?_⟩
    · simp only [List.length_set]
      rw [hd2len, hpwf]
    · simp only
      omega
    · simp only
      rw [List.getElem?_set_self (by rw [hd2len]; omega)]
    · simp only [string_content]
      rw [take_set_of_le _ _ _ _ (le_refl _)]
      rw [take_writeBytes_ge _ _ _ _ (by rw [hd1len]; omega) (by omega)]
      rw [take_writeBytes_le _ _ _ _ (by omega) (by omega)]
      rw [drop_writeBytes_off _ _ _ (by omega)]
      rw [hYlen]
      have harith : s.length + b.length - i - b.length = s.length - i := by omega
      rw [harith]
      rw [List.take_append_of_le_length (by rw [hYlen])]
      rw [List.take_take]
      have hmin : min (s.length - i) (s.length - i) = s.length - i := by omega
      rw [hmin]
      rw [hpdata]
      rw [List.take_append_of_le_length (by omega : i ≤ s.data.length)]
      rw [List.drop_append_of_le_length (by omega : i ≤ s.data.length)]
      rw [List.take_append_of_le_length (by rw [List.length_drop]; omega)]
      rw [List.take_take]
      have hmini : min i s.length = i := by omega
      rw [hmini]
      rw [List.drop_take]
  · rw [if_neg hii]
    have hieq : i = s.length := by omega
    have hwb2 : s.length + b.length ≤ s1.data.length := by omega
    have hd2len : (writeBytes s1.data i b).length = s1.data.length := by
      rw [writeBytes_length]
      rw [hieq]
      omega
    refine ⟨_, rfl, ⟨?_, ?_, ?_⟩, rfl, ?_⟩
    · simp only [List.length_set]
      rw [hd2len, hpwf]
    · simp only
      omega
    · simp only
      rw [List.getElem?_set_self (by rw [hd2len]; omega)]
    · simp only [string_content]
      rw [take_set_of_le _ _ _ _ (le_refl _)]
      rw [take_writeBytes_ge _ _ _ _ (by rw [hieq]; omega) (by omega)]
      rw [hieq]
      have h0 : s.length + b.length - s.length - b.length = 0 := by omega
      rw [h0, List.take_zero, List.append_nil]
      rw [hpdata]
      rw [List.take_append_of_le_length (by omega : s.length ≤ s.data.length)]
      have htk : (s.data.take s.length).take s.length = s.data.take s.length := by
        rw [List.take_take]
        simp
      rw [htk]
      have hdr : (s.data.take s.length).drop s.length = [] := by
        rw [List.drop_of_length_le]
        rw [List.length_take]
        omega
      rw [hdr, List.append_nil]

/-- memcmp only reads the first n bytes: taking at least n bytes of either
buffer does not change the result. -/
lemma memcmp_take (n : Nat) : ∀ (a b : List Nat) (k1 k2 : Nat), n ≤ k1 → n ≤ k2 →
    memcmp (a.take k1) (b.take k2) n = memcmp a b n := by
  induction n with
  | zero =>
    intro a b k1 k2 h1 h2
    simp [memcmp]
  | succ m ih =>
    intro a b k1 k2 h1 h2
    cases a with
    | nil => simp [memcmp]
    | cons x xs =>
      cases b with
      | nil =>
        cases k1 with
        | zero => omega
        | succ k1p => simp [memcmp]
      | cons y ys =>
        cases k1 with
        | zero => omega
        | succ k1p =>
          cases k2 with
          | zero => omega
          | succ k2p =>
            simp only [List.take_succ_cons, memcmp]
            rw [ih xs ys k1p k2p (by omega) (by omega)]

/-- The specification comparison agrees with memcmp over the common length
followed by the length tie-break. -/
lemma compareSpec_eq_memcmp (xs : List Nat) : ∀ ys : List Nat,
    compareSpec xs ys =
      (if memcmp xs ys (min xs.length ys.length) = 0 then
        (if xs.length < ys.length then -1
         else if ys.length < xs.length then 1
         else memcmp xs ys (min xs.length ys.length))
       else memcmp xs ys (min xs.length ys.length)) := by
  induction xs with
  | nil =>
    intro ys
    cases ys with
    | nil => simp [compareSpec, memcmp]
    | cons y ys => simp [compareSpec, memcmp]
  | cons x xs ih =>
    intro ys
    cases ys with
    | nil => simp [compareSpec, memcmp]
    | cons y ys =>
      have hmin : min (x :: xs).length (y :: ys).length = min xs.length ys.length + 1 := by
        simp
        omega
      rw [hmin]
      simp only [compareSpec, memcmp]
      by_cases hxy : x < y
      · rw [if_pos hxy, if_pos hxy]
        norm_num
      · rw [if_neg hxy, if_neg hxy]
        by_cases hyx : y < x
        · rw [if_pos hyx, if_pos hyx]
          norm_num
        · rw [if_neg hyx, if_neg hyx]
          rw [ih ys]
          have hlen : (x :: xs).length < (y :: ys).length ↔ xs.length < ys.length := by
            simp
          by_cases hm : memcmp xs ys (min xs.length ys.length) = 0
          · rw [if_pos hm, if_pos hm]
            simp only [List.length_cons]
            by_cases h1 : xs.length < ys.length
            · rw [if_pos h1, if_pos (by omega : xs.length + 1 < ys.length + 1)]
            · rw [if_neg h1, if_neg (by omega : ¬ xs.length + 1 < ys.length + 1)]
              by_cases h2 : ys.length < xs.length
              · rw [if_pos h2, if_pos (by omega : ys.length + 1 < xs.length + 1)]
              · rw [if_neg h2, if_neg (by omega : ¬ ys.length + 1 < xs.length + 1)]
          · rw [if_neg hm, if_neg hm]

/-- strcmp compares exactly the null-terminated views of the two buffers. -/
lemma strcmp_eq_compareSpec (a : List Nat) : ∀ b : List Nat,
    strcmp a b = compareSpec (cstr_view a) (cstr_view b) := by
  induction a with
  | nil =>
    intro b
    cases b with
    | nil => simp [strcmp, cstr_view, compareSpec]
    | cons y ys =>
      by_cases hy : y = 0
      · simp [strcmp, cstr_view, compareSpec, hy]
      · simp [strcmp, cstr_view, compareSpec, hy]
  | cons x xs ih =>
    intro b
    cases b with
    | nil =>
      by_cases hx : x = 0
      · simp [strcmp, cstr_view, compareSpec, hx]
      · simp [strcmp, cstr_view, compareSpec, hx]
    | cons y ys =>
      simp only [strcmp, cstr_view, List.takeWhile_cons]
      by_cases hxy : x < y
      · rw [if_pos hxy]
        by_cases hx : x = 0
        · subst hx
          simp only [bne_self_eq_false, Bool.false_eq_true, if_false]
          have hy : (y != 0) = true := by
            simp
            omega
          rw [if_pos hy]
          simp [compareSpec]
        · have hxb : (x != 0) = true := by simp [hx]
          have hyb : (y != 0) = true := by
            simp
            omega
          rw [if_pos hxb, if_pos hyb]
          simp [compareSpec, if_pos hxy]
      · rw [if_neg hxy]
        by_cases hyx : y < x
        · rw [if_pos hyx]
          by_cases hy : y = 0
          · subst hy
            simp only [bne_self_eq_false, Bool.false_eq_true, if_false]
            have hx : (x != 0) = true := by
              simp
              omega
            rw [if_pos hx]
            simp [compareSpec]
          · have hyb : (y != 0) = true := by simp [hy]
            have hxb : (x != 0) = true := by
              simp
              omega
            rw [if_pos hxb, if_pos hyb]
            simp [compareSpec, if_neg hxy, if_pos hyx]
        · have hxyeq : x = y := by omega
          subst hxyeq
          by_cases hx : x = 0
          · subst hx
            simp [compareSpec]
          · have hxb : (x != 0) = true := by simp [hx]
            rw [if_neg hx, if_pos hxb, if_pos hxb]
            simp only [compareSpec]
            simp only [if_neg hxy, if_neg hyx]
            have hxsys := ih ys
            simp only [cstr_view] at hxsys
            exact hxsys

/-- string_ensure_capacity can only report success or a null-pointer error. -/
lemma string_ensure_capacity_result (s : string_t) (req : Nat) :
    (string_ensure_capacity s req).1 = STRING_SUCCESS ∨
    (string_ensure_capacity s req).1 = STRING_ERROR_NULL_POINTER := by
  unfold string_ensure_capacity
  by_cases h1 : s.is_owner = false
  · rw [if_pos h1]
    right
    rfl
  · rw [if_neg h1]
    by_cases h2 : req ≤ s.capacity
    · rw [if_pos h2]
      left
      rfl
    · rw [if_neg h2]
      left
      rfl

/-- C1 as stated is refuted: requesting capacity 1 allocates a 1-byte buffer,
smaller than max 1 64 = 64. -/
theorem spec_C1_counterexample :
    (string_create_with_capacity 1 [7]).data.length = 1 ∧
    ¬ max 1 STRING_DEFAULT_CAPACITY ≤ (string_create_with_capacity 1 [7]).data.length := by
  decide

/-- C1 amended: string_create_with_capacity allocates exactly n bytes when
n > 0 and STRING_DEFAULT_CAPACITY bytes when n = 0 (so at least max n 64 only
in those cases), with logical length 0 and a zero terminator at offset 0. -/
theorem spec_C1_amended (n : Nat) (junk : List Nat)
    (hj : junk.length = if n = 0 then STRING_DEFAULT_CAPACITY else n) :
    (string_create_with_capacity n junk).capacity =
      (if n = 0 then STRING_DEFAULT_CAPACITY else n) ∧
    (string_create_with_capacity n junk).data.length =
      (string_create_with_capacity n junk).capacity ∧
    (string_create_with_capacity n junk).length = 0 ∧
    (string_create_with_capacity n junk).data[0]? = some 0 := by
  have hpos : 0 < junk.length := by
    rw [hj]
    by_cases h0 : n = 0
    · rw [if_pos h0]
      simp [STRING_DEFAULT_CAPACITY]
    · rw [if_neg h0]
      omega
  refine ⟨rfl, ?_, rfl, ?_⟩
  · simp [string_create_with_capacity, hj]
  · simp only [string_create_with_capacity]
    rw [List.getElem?_set_self (by omega)]

theorem spec_C1_amended_witness :
    (string_create_with_capacity 1 [7]).capacity = (if 1 = 0 then STRING_DEFAULT_CAPACITY else 1) ∧
    (string_create_with_capacity 1 [7]).data.length = (string_create_with_capacity 1 [7]).capacity ∧
    (string_create_with_capacity 1 [7]).length = 0 ∧
    (string_create_with_capacity 1 [7]).data[0]? = some 0 :=
  spec_C1_amended 1 [7] (by decide)

/-- C5: insert fails STRING_ERROR_INVALID_INDEX exactly when the index exceeds
the length (leaving the string unchanged), and inserting at the length is the
same operation as appending. -/
theorem spec_C5 (s : string_t) (i : Nat) (buffer : Option (List Nat)) (n : Nat) :
    ((string_insert_buffer (some s) i buffer n).1 = STRING_ERROR_INVALID_INDEX ↔
      s.length < i) ∧
    (s.length < i →
      string_insert_buffer (some s) i buffer n = (STRING_ERROR_INVALID_INDEX, some s)) ∧
    string_insert_buffer (some s) s.length buffer n = string_append_buffer (some s) buffer n := by
  refine ⟨⟨?_, ?_⟩, ?_, ?_⟩
  · intro h
    by_contra hni
    simp only [string_insert_buffer] at h
    rw [if_neg hni] at h
    by_cases h2 : buffer.isNone ∧ 0 < n
    · rw [if_pos h2] at h
      simp at h
    · rw [if_neg h2] at h
      by_cases h3 : n = 0
      · rw [if_pos h3] at h
        simp at h
      · rw [if_neg h3] at h
        by_cases h4 : (string_ensure_capacity s (s.length + n + 1)).1 = STRING_SUCCESS
        · rw [if_pos h4] at h
          simp at h
        · rw [if_neg h4] at h
          rcases string_ensure_capacity_result s (s.length + n + 1) with hr | hr
          · exact absurd hr h4
          · rw [hr] at h
            simp at h
  · intro h
    simp [string_insert_buffer, h]
  · intro h
    simp [string_insert_buffer, h]
  · simp only [string_insert_buffer, string_append_buffer]
    rw [if_neg (lt_irrefl s.length)]
    rw [if_neg (lt_irrefl s.length)]

/-- Concrete example strings used by the witnesses. -/
def exHello : string_t :=
  { data := [104, 101, 108, 108, 111, 0, 9, 9], length := 5, capacity := 8, is_owner := true }

theorem spec_C5_witness :
    string_insert_buffer (some exHello) 7 (some [1]) 1 =
      (STRING_ERROR_INVALID_INDEX, some exHello) :=
  (spec_C5 exHello 7 (some [1]) 1).2.1 (by decide)

/-- C7: string_trim on a present instance of length 0 fails with
STRING_ERROR_NULL_POINTER and leaves the instance unchanged. -/
theorem spec_C7 (s : string_t) (h : s.length = 0) :
    string_trim (some s) = (STRING_ERROR_NULL_POINTER, some s) := by
  simp [string_trim, h]

def exEmptyS : string_t :=
  { data := [0, 7], length := 0, capacity := 2, is_owner := true }

theorem spec_C7_witness :
    string_trim (some exEmptyS) = (STRING_ERROR_NULL_POINTER, some exEmptyS) :=
  spec_C7 exEmptyS (by decide)

/-- C8 is refuted by the machine arithmetic: growth_loop_state 64 n is the
value of new_capacity after n iterations of the C while loop of
string_calculate_growth on a 64-bit machine, starting from the default
capacity 64.  For required capacity 2 ^ 63 + 1 (reachable through
string_reserve on a freshly created string) the loop guard
new_capacity < required remains true after every number of iterations — the
size_t doubling chain 64, 128, ..., 2 ^ 63 wraps to 0 and stays there — so the
C function never returns, where the claim says the least sufficient
64 * 2 ^ k is returned. -/
theorem spec_C8_bug :
    ∀ n, growth_loop_state 64 n < 2 ^ 63 + 1 := by
  have key : ∀ n, growth_loop_state 64 n = if n < 58 then 2 ^ (6 + n) else 0 := by
    intro n
    induction n with
    | zero => simp [growth_loop_state]
    | succ m ih =>
      rw [show growth_loop_state 64 (m + 1) = szt_double (growth_loop_state 64 m) from rfl]
      rw [ih]
      by_cases hm : m < 58
      · rw [if_pos hm]
        by_cases hm2 : m + 1 < 58
        · rw [if_pos hm2]
          simp only [szt_double, STRING_GROWTH_FACTOR, SIZE_T_LIMIT]
          rw [← pow_succ]
          rw [Nat.mod_eq_of_lt (Nat.pow_lt_pow_right (by norm_num) (by omega))]
          congr 1
        · have hm57 : m = 57 := by omega
          rw [if_neg hm2]
          subst hm57
          simp only [szt_double, STRING_GROWTH_FACTOR, SIZE_T_LIMIT]
          norm_num
      · rw [if_neg hm, if_neg (by omega : ¬ m + 1 < 58)]
        simp [szt_double]
  intro n
  rw [key n]
  by_cases h : n < 58
  · rw [if_pos h]
    have hle : 2 ^ (6 + n) ≤ 2 ^ 63 := Nat.pow_le_pow_right (by norm_num) (by omega)
    omega
  · rw [if_neg h]
    omega

/-- C9: a NULL source buffer with a positive length makes assign, append and
insert (at a valid index) fail with STRING_ERROR_INVALID_ARGUMENT, leaving the
string untouched. -/
theorem spec_C9 (s : string_t) (i n : Nat) (hn : 0 < n) (hi : i ≤ s.length) :
    string_assign_buffer (some s) none n = (STRING_ERROR_INVALID_ARGUMENT, some s) ∧
    string_append_buffer (some s) none n = (STRING_ERROR_INVALID_ARGUMENT, some s) ∧
    string_insert_buffer (some s) i none n = (STRING_ERROR_INVALID_ARGUMENT, some s) := by
  refine ⟨?_, ?_, ?_⟩
  · simp [string_assign_buffer, hn]
  · simp [string_append_buffer, hn]
  · have hni : ¬ s.length < i := by omega
    simp [string_insert_buffer, hn, hni]

theorem spec_C9_witness :
    string_assign_buffer (some exHello) none 2 = (STRING_ERROR_INVALID_ARGUMENT, some exHello) ∧
    string_append_buffer (some exHello) none 2 = (STRING_ERROR_INVALID_ARGUMENT, some exHello) ∧
    string_insert_buffer (some exHello) 3 none 2 = (STRING_ERROR_INVALID_ARGUMENT, some exHello) :=
  spec_C9 exHello 3 2 (by decide) (by decide)

/-- C3: string_compare is the absence-aware total order: both absent compare
equal, an absent side sorts first, and two present strings compare as the
byte-wise lexicographic order of their logical contents with the shorter
sorting first on a common prefix. -/
theorem spec_C3 :
    string_compare none none = 0 ∧
    (∀ s : string_t, string_compare none (some s) = -1 ∧ string_compare (some s) none = 1) ∧
    ∀ s1 s2 : string_t, StringWF s1 → StringWF s2 →
      string_compare (some s1) (some s2) =
        compareSpec (string_content s1) (string_content s2) := by
  refine ⟨rfl, fun s => ⟨rfl, rfl⟩, ?_⟩
  intro s1 s2 hwf1 hwf2
  obtain ⟨hd1, hl1, _⟩ := hwf1
  obtain ⟨hd2, hl2, _⟩ := hwf2
  have hc1 : (string_content s1).length = s1.length := by
    simp only [string_content, List.length_take]
    omega
  have hc2 : (string_content s2).length = s2.length := by
    simp only [string_content, List.length_take]
    omega
  rw [compareSpec_eq_memcmp, hc1, hc2]
  simp only [string_content]
  rw [memcmp_take (min s1.length s2.length) s1.data s2.data s1.length s2.length
    (by omega) (by omega)]
  simp only [string_compare]
  have hmin : (if s1.length < s2.length then s1.length else s2.length) =
      min s1.length s2.length := by
    by_cases h : s1.length < s2.length
    · rw [if_pos h]
      omega
    · rw [if_neg h]
      omega
  rw [hmin]

def exAb : string_t :=
  { data := [97, 98, 0, 50], length := 2, capacity := 4, is_owner := true }

theorem spec_C3_witness :
    string_compare (some exHello) (some exAb) =
      compareSpec (string_content exHello) (string_content exAb) :=
  spec_C3.2.2 exHello exAb (by decide) (by decide)

/-- string_erase_szt coincides with the idealized string_erase on every input
where no size_t expression wraps: the wrap is the only difference between the
two models. -/
lemma string_erase_szt_agrees (s : string_t) (i c : Nat)
    (hdl : s.data.length = s.capacity) (hlc : s.length < s.capacity)
    (hcap : s.capacity ≤ SIZE_T_LIMIT) (hic : i + c < SIZE_T_LIMIT) :
    string_erase_szt (some s) i c = some (string_erase (some s) i c) := by
  simp only [SIZE_T_LIMIT] at hcap hic
  simp only [string_erase_szt, string_erase]
  by_cases h1 : s.length ≤ i
  · rw [if_pos h1, if_pos h1]
  · rw [if_neg h1, if_neg h1]
    by_cases h2 : c = 0
    · rw [if_pos h2, if_pos h2]
    · rw [if_neg h2, if_neg h2]
      have hadd : szt_add i c = i + c := by
        simp only [szt_add, SIZE_T_LIMIT]
        omega
      have hsub1 : szt_sub s.length i = s.length - i := by
        simp only [szt_sub, SIZE_T_LIMIT]
        omega
      rw [hadd, hsub1]
      have hc1 : (if s.length < i + c then s.length - i else c) ≤ s.length - i := by
        by_cases h : s.length < i + c
        · rw [if_pos h]
        · rw [if_neg h]
          omega
      set c1 := if s.length < i + c then s.length - i else c with hc1def
      have hsub2 : szt_sub (s.length - i) c1 = s.length - i - c1 := by
        simp only [szt_sub, SIZE_T_LIMIT]
        omega
      have hadd2 : szt_add i c1 = i + c1 := by
        simp only [szt_add, SIZE_T_LIMIT]
        omega
      have hsub3 : szt_sub s.length c1 = s.length - c1 := by
        simp only [szt_sub, SIZE_T_LIMIT]
        omega
      rw [hsub2, hadd2, hsub3]
      rw [if_pos ?_]
      constructor
      · intro hca
        constructor
        · omega
        · omega
      · omega

/-- Ten content bytes, a terminator, allocation of 11 bytes. -/
def exTen : string_t :=
  { data := [116, 101, 110, 32, 98, 121, 116, 101, 115, 33, 0],
    length := 10, capacity := 11, is_owner := true }

/-- C6 is refuted by the machine arithmetic at a wrapping count: erasing with
count SIZE_MAX = 2 ^ 64 - 1 from index 1 of a ten-byte string makes the size_t
clamp test index + count > length wrap to 0 > 10 and fail, so the count is not
clamped; length -= count then wraps the length up to 11 and the terminator
write lands at offset 11 of an 11-byte allocation — an out-of-bounds write
(undefined behavior, modelled as none) instead of the clamped erase the claim
describes for every count. -/
theorem spec_C6_bug :
    string_erase_szt (some exTen) 1 (SIZE_T_LIMIT - 1) = none := by decide

/-- C10: string_compare_cstr reads the container only up to its first zero
byte; two containers with the same null-terminated view (each having an
embedded zero inside its logical content) compare identically against every
null-terminated source. -/
theorem spec_C10 (s1 s2 : string_t) (c : List Nat) (p1 p2 : Nat)
    (hp1 : p1 < s1.length) (hz1 : s1.data[p1]? = some 0)
    (hp2 : p2 < s2.length) (hz2 : s2.data[p2]? = some 0)
    (hview : cstr_view s1.data = cstr_view s2.data) :
    string_compare_cstr (some s1) (some c) = string_compare_cstr (some s2) (some c) := by
  simp only [string_compare_cstr]
  rw [strcmp_eq_compareSpec, strcmp_eq_compareSpec, hview]

def exZed : string_t :=
  { data := [97, 0, 99, 7], length := 3, capacity := 4, is_owner := true }

def exZed2 : string_t :=
  { data := [97, 0, 100, 8, 5], length := 4, capacity := 5, is_owner := true }

theorem spec_C10_witness :
    string_compare_cstr (some exZed) (some [97, 98, 0]) =
      string_compare_cstr (some exZed2) (some [97, 98, 0]) :=
  spec_C10 exZed exZed2 [97, 98, 0] 1 1 (by decide) (by decide) (by decide) (by decide)
    (by decide)

/-- C4: inserting a present buffer at a valid index and then erasing the same
range restores the original logical content and length bit-for-bit. -/
theorem spec_C4 (s : string_t) (i : Nat) (b : List Nat) (hwf : StringWF s)
    (hi : i ≤ s.length)
    (hsucc : (string_insert_buffer (some s) i (some b) b.length).1 = STRING_SUCCESS) :
    ∃ t, (string_erase (string_insert_buffer (some s) i (some b) b.length).2 i b.length).2
        = some t ∧
      string_content t = string_content s ∧ t.length = s.length := by
  by_cases hb : b = []
  · subst hb
    have hins : string_insert_buffer (some s) i (some ([] : List Nat)) (0 : Nat)
        = (STRING_SUCCESS, some s) := by
      have hni : ¬ s.length < i := by omega
      simp [string_insert_buffer, hni]
    simp only [List.length_nil] at hsucc ⊢
    rw [hins]
    by_cases hi2 : s.length ≤ i
    · refine ⟨s, ?_, rfl, rfl⟩
      simp [string_erase, hi2]
    · refine ⟨s, ?_, rfl, rfl⟩
      simp [string_erase, hi2]
  · obtain ⟨t1, ht1eq, ht1wf, ht1len, ht1content⟩ :=
      string_insert_buffer_success s i b hwf hi hb hsucc
    rw [ht1eq]
    have hbpos : 0 < b.length := List.length_pos.mpr hb
    have hit1 : i < t1.length := by omega
    obtain ⟨h1, t2, h2eq, h2wf, h2cap, h2own, h2len, h2content⟩ :=
      string_erase_spec t1 i b.length ht1wf hit1
    have hmin : min b.length (t1.length - i) = b.length := by omega
    have hClen : (string_content s).length = s.length := by
      obtain ⟨hd1, hl1, _⟩ := hwf
      simp only [string_content, List.length_take]
      omega
    have hAlen : ((string_content s).take i).length = i := by
      rw [List.length_take]
      omega
    have hABlen : ((string_content s).take i ++ b).length = i + b.length := by
      rw [List.length_append, hAlen]
    refine ⟨t2, h2eq, ?_, ?_⟩
    · rw [h2content, hmin, ht1content]
      rw [List.take_append_of_le_length (by rw [hABlen]; omega)]
      rw [List.take_append_of_le_length (by rw [hAlen])]
      rw [List.take_take]
      have hminii : min i i = i := by omega
      rw [hminii]
      rw [List.drop_left' hABlen]
      exact List.take_append_drop i (string_content s)
    · rw [h2len, hmin, ht1len]
      omega

theorem spec_C4_witness :
    ∃ t, (string_erase
        (string_insert_buffer (some exHello) 2 (some [1, 2]) (List.length [1, 2])).2
        2 (List.length [1, 2])).2 = some t ∧
      string_content t = string_content exHello ∧ t.length = exHello.length :=
  spec_C4 exHello 2 [1, 2] (by decide) (by decide) (by decide)

/-- C2: string_copy_to_buffer fails immediately on a zero-sized buffer;
otherwise it writes min length (size - 1) content bytes plus a terminator,
succeeds exactly when the whole content fits, and on a too-small buffer leaves
the first size - 1 content bytes plus a terminator. -/
theorem spec_C2 (s : string_t) (buf : List Nat) (hwf : StringWF s) :
    (buf.length = 0 →
      string_copy_to_buffer (some s) (some buf) = (STRING_ERROR_BUFFER_TOO_SMALL, some buf)) ∧
    (0 < buf.length →
      (string_copy_to_buffer (some s) (some buf)).2 =
        some ((string_content s).take (min s.length (buf.length - 1)) ++ [0] ++
          buf.drop (min s.length (buf.length - 1) + 1)) ∧
      ((string_copy_to_buffer (some s) (some buf)).1 = STRING_SUCCESS ↔
        s.length < buf.length) ∧
      (buf.length ≤ s.length →
        (string_copy_to_buffer (some s) (some buf)).1 = STRING_ERROR_BUFFER_TOO_SMALL ∧
        (string_copy_to_buffer (some s) (some buf)).2 =
          some ((string_content s).take (buf.length - 1) ++ [0]))) := by
  obtain ⟨hdl, hlc, hterm⟩ := hwf
  constructor
  · intro h0
    have hnil : buf = [] := List.length_eq_zero.mp h0
    subst hnil
    simp [string_copy_to_buffer]
  · intro hk
    have hbufne : ¬ buf.length = 0 := by omega
    simp only [string_copy_to_buffer]
    rw [if_neg hbufne]
    have hclmin : (if buf.length ≤ s.length then buf.length - 1 else s.length) =
        min s.length (buf.length - 1) := by
      by_cases h : buf.length ≤ s.length
      · rw [if_pos h]
        omega
      · rw [if_neg h]
        omega
    rw [hclmin]
    set cl := min s.length (buf.length - 1) with hcl
    have hclL : cl ≤ s.length := by omega
    have hclbuf : cl < buf.length := by omega
    have hsrclen : (s.data.take cl).length = cl := by
      rw [List.length_take]
      omega
    have hbuf1 : writeBytes buf 0 (s.data.take cl) = s.data.take cl ++ buf.drop cl := by
      simp [writeBytes, hsrclen]
    rw [hbuf1]
    cases hdrop : buf.drop cl with
    | nil =>
      exfalso
      have : (buf.drop cl).length = buf.length - cl := List.length_drop cl buf
      rw [hdrop] at this
      simp at this
      omega
    | cons z rest =>
      have hrest : rest = buf.drop (cl + 1) := by
        have htl : (buf.drop cl).tail = buf.drop (cl + 1) := List.tail_drop buf cl
        rw [hdrop] at htl
        simpa using htl
      have hset : (s.data.take cl ++ z :: rest).set cl 0 =
          s.data.take cl ++ [0] ++ buf.drop (cl + 1) := by
        rw [List.set_append_right _ _ (by rw [hsrclen])]
        have : cl - (s.data.take cl).length = 0 := by
          rw [hsrclen]
          omega
        rw [this]
        rw [List.set_cons_zero]
        rw [hrest]
        simp
      rw [hset]
      have hcontent : (string_content s).take cl = s.data.take cl := by
        simp only [string_content, List.take_take]
        congr 1
        omega
      refine ⟨?_, ?_, ?_⟩
      · rw [hcontent]
      · constructor
        · intro h
          by_contra hge
          have hcleq : cl = buf.length - 1 := by omega
          have hne : ¬ (cl = s.length) := by omega
          rw [if_neg hne] at h
          simp at h
        · intro h
          have hcleq : cl = s.length := by omega
          rw [if_pos hcleq]
      · intro h
        have hcleq : cl = buf.length - 1 := by omega
        have hne : ¬ (cl = s.length) := by omega
        rw [if_neg hne]
        refine ⟨rfl, ?_⟩
        have hdempty : buf.drop (cl + 1) = [] := by
          apply List.drop_of_length_le
          omega
        rw [← hcleq, hcontent]
        simp [hdempty]

theorem spec_C2_witness :
    (string_copy_to_buffer (some exHello) (some [7, 7, 7])).1 =
      STRING_ERROR_BUFFER_TOO_SMALL ∧
    (string_copy_to_buffer (some exHello) (some [7, 7, 7])).2 =
      some ((string_content exHello).take ((3 : Nat) - 1) ++ [0]) :=
  ((spec_C2 exHello [7, 7, 7] (by decide)).2 (by decide)).2.2 (by decide)
